import Mathlib

/-!
Verification development for the predictive-risk-engine repository
(`src/finance_engine.c`).

The C program is shallowly embedded here:

* C `float`/`double` arithmetic is idealized as exact real arithmetic (`ℝ`);
  where a claim is value-agnostic the embedding is polymorphic so that it can
  also be evaluated on `ℚ`.
* the global fixed-size bucket table `Portfolio *buckets[TABLE_SIZE]` is a
  function `ℕ → Option (Portfolio β)`; the hash bound theorem shows every
  index the program uses lies below `TABLE_SIZE`.
* C `long` arithmetic in `hash` wraps modulo `2 ^ 64` (two's complement),
  made explicit by `wrap64`; C's truncated `%` on signed integers is
  `Int.tmod`.
* the unbounded `for` loop in `rieman` is embedded as a step-indexed loop
  `riemanGo` with an explicit fuel argument: `none` means the loop has not
  exited within `fuel` iterations, so the program has produced no outcome
  yet. The C loop itself has no such bound.
* the libc `qsort` call is modelled as a comparison sort driven by the
  program's `compare` callback (`qsortModel`); since `compare` orders every
  pair of unequal values correctly and ties arise only between equal values,
  any comparison sort yields the ascending arrangement, which is proved
  below against Mathlib's `List.insertionSort`.
* `rand()` is an oracle `rng : ℕ → ℕ` (the k-th call returns `rng k`), and
  the whole analysis phase of `main` (lines 130-151) is the state-passing
  function `runTarget` returning the exit code, the final store and the
  optional output line.
-/

namespace FinanceEngine

/-- `#define TABLE_SIZE 11` (finance_engine.c line 33). -/
def TABLE_SIZE : ℕ := 11

/-- `#define PI 3.1415927` (line 37): the program's value, not the real π. -/
noncomputable def PI : ℝ := 3.1415927

/-- `#define INV_SQRT_2PI (1.0f / sqrtf(PI * 2.0f))` (line 38). -/
noncomputable def INV_SQRT_2PI : ℝ := 1 / Real.sqrt (PI * 2)

/-- glibc `RAND_MAX`. -/
def RAND_MAX : ℕ := 2147483647

/-- `toupper` on an ASCII byte, as used by `hash` (line 198). -/
def toUpperByte (c : ℕ) : ℕ := if 97 ≤ c ∧ c ≤ 122 then c - 32 else c

/-- Weight of an already-uppercased byte in `hash` (lines 200-205):
`charint = (int)upperchar - 'A'; if (charint == 0) charint = 3;`. -/
def upperWeight (u : ℕ) : ℤ := if (u : ℤ) - 65 = 0 then 3 else (u : ℤ) - 65

/-- Per-character weight in `hash`: the weight of the uppercased byte. -/
def charWeight (c : ℕ) : ℤ := upperWeight (toUpperByte c)

/-- Two's-complement wrap-around of a C `long` (64-bit). -/
def wrap64 (x : ℤ) : ℤ := (x + 2 ^ 63) % 2 ^ 64 - 2 ^ 63

/-- The accumulation loop of `hash` (lines 196-208):
`total = (total * 33) + charint;`, with `long` overflow wrapping. -/
def hashTotal : List ℕ → ℤ → ℤ
  | [], t => t
  | c :: rest, t => hashTotal rest (wrap64 (t * 33 + charWeight c))

/-- `hash` (lines 190-215): seeds `total = 5381`, folds the string, then
`index = total % TABLE_SIZE; if (index < 0) index = index * -1;`.
C's `%` on signed operands truncates toward zero, i.e. `Int.tmod`. -/
def hash (type : List ℕ) : ℤ :=
  let index := Int.tmod (hashTotal type 5381) (TABLE_SIZE : ℤ)
  if index < 0 then -index else index

/-- The `hash` result used as an index into the bucket array. -/
def hashIdx (type : List ℕ) : ℕ := (hash type).toNat

/-- The `Portfolio` record (lines 9-24). `day_count` counts appended
observations; `returns` holds exactly the first `day_count` slots of the C
array (allocated spare capacity carries no data). -/
structure Portfolio (β : Type) where
  type_name : List ℕ
  returns : List β
  day_count : ℕ
  capacity : ℕ
  mean : β
  std_dev : β
  worst_case : β
  worst_case_rieman : β
deriving DecidableEq

/-- The global bucket table `Portfolio *buckets[TABLE_SIZE]` (line 40),
indexed by the result of `hash`. -/
def Store (β : Type) := ℕ → Option (Portfolio β)

/-- All buckets start as `NULL` (C zero-initialized globals). -/
def emptyStore {β : Type} : Store β := fun _ => none

/-- Writing one bucket of the table. -/
def updateStore {β : Type} (s : Store β) (i : ℕ) (p : Portfolio β) : Store β :=
  fun j => if j = i then some p else s j

/-- `load`'s label cleanup (line 172): `type[strcspn(type, "\r\n")] = 0`
truncates the label at the first CR or LF byte. -/
def stripType (l : List ℕ) : List ℕ := l.takeWhile fun c => decide (c ≠ 13 ∧ c ≠ 10)

/-- `create_bucket` (lines 223-252): an empty series with capacity 50 and
zeroed statistics. -/
def create_bucket {β : Type} [Zero β] (t : List ℕ) : Portfolio β :=
  { type_name := t, returns := [], day_count := 0, capacity := 50,
    mean := 0, std_dev := 0, worst_case := 0, worst_case_rieman := 0 }

/-- One iteration of `main`'s ingestion loop (lines 108-129) applied to the
(label, value) record produced by `load`: truncate the label at the first
CR/LF, hash it, create the bucket if the slot is `NULL`, double the capacity
when full (`realloc` preserves the existing elements), append the value. -/
def ingestRecord {β : Type} [Zero β] (store : Store β) (rawType : List ℕ) (value : β) :
    Store β :=
  let t := stripType rawType
  let index := hashIdx t
  let b :=
    match store index with
    | none => create_bucket t
    | some b0 => b0
  let b1 := if b.capacity ≤ b.day_count then { b with capacity := b.capacity * 2 } else b
  let b2 := { b1 with returns := b1.returns ++ [value], day_count := b1.day_count + 1 }
  updateStore store index b2

/-- The accumulation loop of `mean` (lines 268-273): `total_value += data[i]`. -/
noncomputable def listSum (data : List ℝ) : ℝ := data.foldl (fun acc x => acc + x) 0

/-- `mean` (lines 260-277): 0 on an empty series, otherwise the sum divided
by the count. -/
noncomputable def mean (data : List ℝ) : ℝ :=
  if data.length = 0 then 0 else listSum data / (data.length : ℝ)

/-- The accumulation loop of `stand_dev` (lines 295-300):
`total_value += (data[i]-mean) * (data[i]-mean)`. -/
noncomputable def sqAccum (m : ℝ) (data : List ℝ) : ℝ :=
  data.foldl (fun acc x => acc + (x - m) * (x - m)) 0

/-- `stand_dev` (lines 286-307): 0 for fewer than two points, otherwise
`sqrt(total / (count - 1))` (Bessel-corrected). -/
noncomputable def stand_dev (data : List ℝ) (m : ℝ) : ℝ :=
  if data.length < 2 then 0
  else Real.sqrt (sqAccum m data / ((data.length : ℝ) - 1))

/-- One Box-Muller iteration of `synth_data_generator` (lines 331-345); the
i-th loop iteration consumes the `rand()` results `rng (2*i)` and
`rng (2*i+1)`. -/
noncomputable def boxMullerPair (rng : ℕ → ℕ) (i : ℕ) (m dev : ℝ) : ℝ × ℝ :=
  let u1 : ℝ := ((rng (2 * i) : ℝ) + 1) / ((RAND_MAX : ℝ) + 1)
  let u2 : ℝ := ((rng (2 * i + 1) : ℝ) + 1) / ((RAND_MAX : ℝ) + 1)
  let gravity := Real.sqrt (-2 * Real.log u1)
  (gravity * Real.cos ((PI * 2) * u2) * dev + m,
   gravity * Real.sin ((PI * 2) * u2) * dev + m)

/-- `synth_data_generator` (lines 316-348): 5000 Box-Muller pairs, 10000
values in order. -/
noncomputable def synth_data_generator (rng : ℕ → ℕ) (m dev : ℝ) : List ℝ :=
  (List.range 5000).bind fun i =>
    [(boxMullerPair rng i m dev).1, (boxMullerPair rng i m dev).2]

/-- The `qsort` comparator `compare` (lines 354-367). Note the equal case
returns 1, not 0. -/
def compare {α : Type} [LinearOrder α] (a b : α) : ℤ :=
  if a < b then -1 else if b < a then 1 else 1

/-- Insertion of one element, taking the left element whenever the
comparator says it does not come after (`compare x y <= 0`). -/
def insertSorted {α : Type} [LinearOrder α] (x : α) : List α → List α
  | [] => [x]
  | y :: ys => if compare x y ≤ 0 then x :: y :: ys else y :: insertSorted x ys

/-- Model of the libc `qsort` call in `analyze` (line 377): a comparison
sort driven by `compare`. -/
def qsortModel {α : Type} [LinearOrder α] : List α → List α
  | [] => []
  | x :: xs => insertSorted x (qsortModel xs)

/-- `analyze` (lines 373-383): sort the sample with `compare`, read slot 499;
the read is out of bounds (`none`) on samples shorter than 500. The returned
value is what the C function stores into `bucket->worst_case`. -/
def analyze {α : Type} [LinearOrder α] (data : List α) : Option α :=
  (qsortModel data)[499]?

/-- `float step_size = 0.0001;` (line 398). -/
noncomputable def stepSize : ℝ := 0.0001

/-- The rectangle height of `rieman` (lines 405-413):
`z = (x-mean)/deviation; height = INV_SQRT_2PI/deviation*(expf(-0.5*(z*z)))`. -/
noncomputable def heightFn (m dev x : ℝ) : ℝ :=
  let z := (x - m) / dev
  INV_SQRT_2PI / dev * Real.exp (-0.5 * (z * z))

/-- The integration loop of `rieman` (line 404):
`for (x = start; bucket < 0.05; x += step_size) bucket += height*step_size;`
with an explicit fuel bound: `none` means the loop has not exited within
`fuel` iterations (the C loop itself has no bound), `some x` is the value of
`x` when the loop exits. -/
noncomputable def riemanGo (m dev : ℝ) : ℕ → ℝ → ℝ → Option ℝ
  | 0, _, _ => none
  | fuel + 1, x, bucket =>
    if bucket < 0.05 then
      riemanGo m dev fuel (x + stepSize) (bucket + heightFn m dev x * stepSize)
    else some x

/-- `rieman` (lines 393-420): starts at `mean - (5*deviation)` with an empty
accumulator; the result is what the C function stores into
`adress->worst_case_rieman`. The `data` parameter is declared by the C
function and never read. -/
noncomputable def rieman (data : List ℝ) (m dev : ℝ) (fuel : ℕ) : Option ℝ :=
  riemanGo m dev fuel (m - 5 * dev) 0

/-- The left-endpoint rectangle sum of the first `n` integration steps of
`rieman`: rectangles of width `stepSize` whose left endpoints walk the grid
`mean - 5*deviation + i * stepSize`. -/
noncomputable def massUpTo (m dev : ℝ) : ℕ → ℝ
  | 0 => 0
  | n + 1 => massUpTo m dev n + heightFn m dev ((m - 5 * dev) + n * stepSize) * stepSize

/-- `send2python` (lines 429-462) without the `printf` formatting: the
output record `(type_name, mean, stability, min_percentage, max_percentage)`
with `floor = 0`, `cap = 1`. -/
noncomputable def send2python (p : Portfolio ℝ) : List ℕ × ℝ × ℝ × ℝ × ℝ :=
  let mn := if p.worst_case < p.worst_case_rieman then p.worst_case else p.worst_case_rieman
  let mx := if p.worst_case < p.worst_case_rieman then p.worst_case_rieman else p.worst_case
  let min_percentage := ((mn - 0) / (1 - 0)) * 100
  let max_percentage := ((mx - 0) / (1 - 0)) * 100
  let stability := 100 - ((p.std_dev - 0) / (1 - 0)) * 100
  (p.type_name, p.mean, stability, min_percentage, max_percentage)

/-- Phases 4-6 of `main` (lines 136-151), entered once the target's bucket
was found: store the mean, stop with exit code 2 if the standard deviation
is 0, otherwise sample, run both estimators and emit the output line.
`none` means `rieman`'s loop has not exited within `fuel` iterations. -/
noncomputable def analyzeFound (rng : ℕ → ℕ) (fuel : ℕ) (store : Store ℝ) (index : ℕ)
    (b : Portfolio ℝ) : Option (ℕ × Store ℝ × Option (List ℕ × ℝ × ℝ × ℝ × ℝ)) :=
  let average := mean b.returns
  let b1 := { b with mean := average }
  let store1 := updateStore store index b1
  let sdev := stand_dev b1.returns average
  if sdev = 0 then some (2, store1, none)
  else
    let b2 := { b1 with std_dev := sdev }
    let temp_data := synth_data_generator rng average sdev
    let b3 := { b2 with worst_case := (analyze temp_data).getD 0 }
    match rieman b3.returns average sdev fuel with
    | none => none
    | some r =>
      let b4 := { b3 with worst_case_rieman := r }
      let store2 := updateStore store1 index b4
      some (0, store2, some (send2python b4))

/-- Phases 3-6 of `main` (lines 130-151): hash the target label (`argv[2]`
is hashed as-is), report exit code 3 when the bucket is `NULL`, otherwise
analyze it. The result is `(exit code, final store, optional output line)`. -/
noncomputable def runTarget (rng : ℕ → ℕ) (fuel : ℕ) (store : Store ℝ) (target : List ℕ) :
    Option (ℕ × Store ℝ × Option (List ℕ × ℝ × ℝ × ℝ × ℝ)) :=
  match store (hashIdx target) with
  | none => some (3, store, none)
  | some b => analyzeFound rng fuel store (hashIdx target) b

/-- A store holding one degenerate series (two equal observations) in
bucket 3, the bucket of the label "A". -/
noncomputable def degBucket : Portfolio ℝ :=
  { type_name := [65], returns := [1, 1], day_count := 2, capacity := 50,
    mean := 0, std_dev := 0, worst_case := 0, worst_case_rieman := 0 }

/-- The one-bucket store holding `degBucket` at index 3. -/
noncomputable def degStore : Store ℝ := fun j => if j = 3 then some degBucket else none

/-! ## Hash bounds -/

/-- C's truncated `%` by 11 always lands in `[-10, 10]`. -/
lemma tmod_eleven_le (t : ℤ) : -10 ≤ Int.tmod t 11 ∧ Int.tmod t 11 ≤ 10 := by
  rcases t with m | m
  · have h : m % 11 < 11 := Nat.mod_lt m (by norm_num)
    have he : Int.tmod (Int.ofNat m) 11 = ((m % 11 : ℕ) : ℤ) := rfl
    rw [he]
    omega
  · have h : (m + 1) % 11 < 11 := Nat.mod_lt (m + 1) (by norm_num)
    have he : Int.tmod (Int.negSucc m) 11 = -(((m + 1) % 11 : ℕ) : ℤ) := rfl
    rw [he]
    omega

/-- C10: for every input string — empty, non-alphabetic bytes, or long
enough to wrap the `long` accumulator — `hash` returns an index in
`[0, TABLE_SIZE - 1] = [0, 10]`, so every access of the global `buckets`
array at a hash result is within bounds. -/
theorem C10_hash_within_bounds (type : List ℕ) :
    0 ≤ hash type ∧ hash type < (TABLE_SIZE : ℤ) ∧ hashIdx type < TABLE_SIZE := by
  have hb := tmod_eleven_le (hashTotal type 5381)
  simp only [hash, hashIdx, TABLE_SIZE, Nat.cast_ofNat] at *
  split <;> omega

/-! ## Label normalization and collisions -/

/-- `takeWhile` over a concatenation whose first part satisfies the
predicate and whose second part starts by violating it (or is empty). -/
lemma takeWhile_append_all {p : ℕ → Bool} :
    ∀ l1 l2 : List ℕ, (∀ c ∈ l1, p c = true) → (∀ c ∈ l2, p c = false) →
      (l1 ++ l2).takeWhile p = l1 := by
  intro l1
  induction l1 with
  | nil =>
    intro l2 _ h2
    cases l2 with
    | nil => rfl
    | cons c t =>
      simp [List.takeWhile_cons, h2 c (by simp)]
  | cons a t ih =>
    intro l2 h1 h2
    have hpa : p a = true := h1 a (by simp)
    have ht := ih l2 (fun c hc => h1 c (by simp [hc])) h2
    simp [List.takeWhile_cons, hpa, ht]

/-- `load`'s truncation removes exactly a trailing run of CR/LF bytes from
a label whose body contains none. -/
lemma stripType_core_tail (core tail : List ℕ)
    (hcore : ∀ c ∈ core, c ≠ 13 ∧ c ≠ 10) (htail : ∀ c ∈ tail, c = 13 ∨ c = 10) :
    stripType (core ++ tail) = core := by
  apply takeWhile_append_all
  · intro c hc
    simpa using hcore c hc
  · intro c hc
    rcases htail c hc with h | h <;> simp [h]

/-- `hashTotal` only sees labels through `toUpperByte`. -/
lemma hashTotal_congr_upper :
    ∀ l1 l2 : List ℕ, l1.map toUpperByte = l2.map toUpperByte →
      ∀ t : ℤ, hashTotal l1 t = hashTotal l2 t := by
  intro l1
  induction l1 with
  | nil =>
    intro l2 h t
    rw [List.map_nil] at h
    rw [List.eq_nil_of_map_eq_nil h.symm]
  | cons a t1 ih =>
    intro l2 h t
    cases l2 with
    | nil => simp at h
    | cons b t2 =>
      simp only [List.map_cons, List.cons.injEq] at h
      simp only [hashTotal, charWeight, h.1]
      exact ih t2 h.2 _

/-- `hash` is invariant under per-byte case folding. -/
lemma hash_congr_upper (l1 l2 : List ℕ) (h : l1.map toUpperByte = l2.map toUpperByte) :
    hash l1 = hash l2 := by
  unfold hash
  rw [hashTotal_congr_upper l1 l2 h]

/-- C1: distinct normalized labels that hash to the same bucket do NOT get
separate series. The labels "A" (`[65]`) and "D" (`[68]`) are distinct yet
hash to the same slot (the `charint == 0` fix-up gives 'A' the weight 3,
which is exactly 'D''s weight); ingesting ("A", 1) and then ("D", 2) leaves
a single bucket, labelled "A", whose series holds both observations — the
value ingested under "D" was appended to "A"'s series. -/
theorem C1_colliding_labels_share_series :
    hashIdx (stripType [65]) = hashIdx (stripType [68]) ∧
    ([65] : List ℕ) ≠ [68] ∧
    (ingestRecord (ingestRecord (emptyStore : Store ℚ) [65] 1) [68] 2)
        (hashIdx (stripType [68])) =
      some { type_name := [65], returns := [1, 2], day_count := 2, capacity := 50,
             mean := 0, std_dev := 0, worst_case := 0, worst_case_rieman := 0 } := by
  decide

/-- C6: two raw labels differing only in letter case and/or a trailing run
of CR/LF bytes are normalized by ingestion (`load`'s truncation plus
`hash`'s `toupper`) to the same bucket, and observations ingested under the
two raw labels accumulate in one and the same series. -/
theorem C6_case_crlf_insensitive (core1 tail1 core2 tail2 : List ℕ)
    (hc1 : ∀ c ∈ core1, c ≠ 13 ∧ c ≠ 10) (hc2 : ∀ c ∈ core2, c ≠ 13 ∧ c ≠ 10)
    (ht1 : ∀ c ∈ tail1, c = 13 ∨ c = 10) (ht2 : ∀ c ∈ tail2, c = 13 ∨ c = 10)
    (hcase : core1.map toUpperByte = core2.map toUpperByte) :
    hashIdx (stripType (core1 ++ tail1)) = hashIdx (stripType (core2 ++ tail2)) ∧
    ∀ (β : Type) [Zero β] (v1 v2 : β),
      ∃ p : Portfolio β,
        (ingestRecord (ingestRecord emptyStore (core1 ++ tail1) v1) (core2 ++ tail2) v2)
            (hashIdx (stripType (core1 ++ tail1))) = some p ∧
        p.returns = [v1, v2] := by
  have hs1 : stripType (core1 ++ tail1) = core1 := stripType_core_tail _ _ hc1 ht1
  have hs2 : stripType (core2 ++ tail2) = core2 := stripType_core_tail _ _ hc2 ht2
  have hh : hashIdx core1 = hashIdx core2 := by
    show (hash core1).toNat = (hash core2).toNat
    rw [hash_congr_upper core1 core2 hcase]
  constructor
  · rw [hs1, hs2, hh]
  · intro β _ v1 v2
    have e1 : ingestRecord (emptyStore : Store β) (core1 ++ tail1) v1 =
        updateStore emptyStore (hashIdx core1)
          { type_name := core1, returns := [v1], day_count := 1, capacity := 50,
            mean := 0, std_dev := 0, worst_case := 0, worst_case_rieman := 0 } := by
      simp only [ingestRecord, hs1, emptyStore, create_bucket]
      norm_num
    have e2 : ingestRecord
        (updateStore (emptyStore : Store β) (hashIdx core1)
          { type_name := core1, returns := [v1], day_count := 1, capacity := 50,
            mean := 0, std_dev := 0, worst_case := 0, worst_case_rieman := 0 })
        (core2 ++ tail2) v2 =
        updateStore
          (updateStore (emptyStore : Store β) (hashIdx core1)
            { type_name := core1, returns := [v1], day_count := 1, capacity := 50,
              mean := 0, std_dev := 0, worst_case := 0, worst_case_rieman := 0 })
          (hashIdx core1)
          { type_name := core1, returns := [v1, v2], day_count := 2, capacity := 50,
            mean := 0, std_dev := 0, worst_case := 0, worst_case_rieman := 0 } := by
      simp only [ingestRecord, hs2, ← hh, updateStore]
      norm_num
    refine ⟨{ type_name := core1, returns := [v1, v2], day_count := 2, capacity := 50,
              mean := 0, std_dev := 0, worst_case := 0, worst_case_rieman := 0 }, ?_, ?_⟩
    · rw [hs1, e1, e2]
      simp [updateStore]
    · rfl

/-- Witness for C6 on the raw labels "Stocks" and "stocks\r\n". -/
theorem C6_case_crlf_insensitive_witness :
    hashIdx (stripType ([83, 116, 111, 99, 107, 115] ++ [])) =
      hashIdx (stripType ([115, 116, 111, 99, 107, 115] ++ [13, 10])) ∧
    ∃ p : Portfolio ℚ,
      (ingestRecord
          (ingestRecord emptyStore ([83, 116, 111, 99, 107, 115] ++ []) (1 : ℚ))
          ([115, 116, 111, 99, 107, 115] ++ [13, 10]) 2)
          (hashIdx (stripType ([83, 116, 111, 99, 107, 115] ++ []))) = some p ∧
      p.returns = [1, 2] := by
  have h := C6_case_crlf_insensitive [83, 116, 111, 99, 107, 115] []
    [115, 116, 111, 99, 107, 115] [13, 10]
    (by decide) (by decide) (by decide) (by decide) (by decide)
  exact ⟨h.1, h.2 ℚ 1 2⟩

/-! ## Moment estimator -/

/-- The `mean` accumulation loop computes the list sum. -/
lemma foldl_add_eq (l : List ℝ) : ∀ a : ℝ, l.foldl (fun acc x => acc + x) a = a + l.sum := by
  induction l with
  | nil => intro a; simp
  | cons x t ih =>
    intro a
    rw [List.foldl_cons, ih, List.sum_cons]
    ring

lemma listSum_eq_sum (l : List ℝ) : listSum l = l.sum := by
  rw [listSum, foldl_add_eq, zero_add]

/-- The `stand_dev` accumulation loop computes the sum of squared
deviations. -/
lemma sqAccum_eq_sum (m : ℝ) (l : List ℝ) :
    sqAccum m l = ((l.map fun x => (x - m) ^ 2).sum) := by
  have key : ∀ a : ℝ, l.foldl (fun acc x => acc + (x - m) * (x - m)) a =
      a + ((l.map fun x => (x - m) ^ 2).sum) := by
    induction l with
    | nil => intro a; simp
    | cons x t ih =>
      intro a
      rw [List.foldl_cons, ih, List.map_cons, List.sum_cons]
      ring
  rw [sqAccum, key, zero_add]

/-- C7: `mean` returns 0 on the empty series; `stand_dev` returns 0 on any
series with fewer than 2 observations; on a series with at least 2
observations, `stand_dev` is the square root of the sum of squared
deviations from the caller-supplied mean divided by the Bessel-corrected
denominator `count - 1`. -/
theorem C7_moment_estimator_contract :
    mean [] = 0 ∧
    (∀ (data : List ℝ) (m : ℝ), data.length < 2 → stand_dev data m = 0) ∧
    (∀ (data : List ℝ) (m : ℝ), 2 ≤ data.length →
      stand_dev data m =
        Real.sqrt (((data.map fun x => (x - m) ^ 2).sum) / ((data.length : ℝ) - 1))) := by
  refine ⟨by simp [mean], ?_, ?_⟩
  · intro data m h
    unfold stand_dev
    rw [if_pos h]
  · intro data m h
    unfold stand_dev
    rw [if_neg (by omega), sqAccum_eq_sum]

/-- Witness for C7 on concrete series. -/
theorem C7_moment_estimator_contract_witness :
    mean [] = 0 ∧ stand_dev [(7 : ℝ)] 7 = 0 ∧
    stand_dev [(1 : ℝ), 3] 2 =
      Real.sqrt (((([(1 : ℝ), 3]).map fun x => (x - 2) ^ 2).sum) /
        ((([(1 : ℝ), 3]).length : ℝ) - 1)) :=
  ⟨C7_moment_estimator_contract.1,
   C7_moment_estimator_contract.2.1 [7] 7 (by norm_num),
   C7_moment_estimator_contract.2.2 [1, 3] 2 (by norm_num)⟩

/-- C8: on a series of N ≥ 2 identical values, `stand_dev` fed with the
mean computed by `mean` on that same series is exactly 0 (in the exact
arithmetic of this embedding; the C computation also yields float 0.0
there, since the double accumulator represents N·v and (N·v)/N exactly). -/
theorem C8_constant_series_zero_deviation (v : ℝ) (N : ℕ) (h : 2 ≤ N) :
    stand_dev (List.replicate N v) (mean (List.replicate N v)) = 0 := by
  have hN : ((N : ℝ)) ≠ 0 := by
    have : (0 : ℝ) < (N : ℝ) := by
      exact_mod_cast Nat.lt_of_lt_of_le (by norm_num) h
    linarith
  have hm : mean (List.replicate N v) = v := by
    unfold mean
    rw [if_neg (by simp; omega), listSum_eq_sum]
    rw [List.sum_replicate, nsmul_eq_mul, List.length_replicate]
    field_simp
  rw [hm]
  unfold stand_dev
  rw [if_neg (by simp; omega)]
  have hz : sqAccum v (List.replicate N v) = 0 := by
    rw [sqAccum_eq_sum]
    simp
  rw [hz, zero_div, Real.sqrt_zero]

/-- Witness for C8 at N = 2, v = 7. -/
theorem C8_constant_series_zero_deviation_witness :
    stand_dev (List.replicate 2 (7 : ℝ)) (mean (List.replicate 2 (7 : ℝ))) = 0 :=
  C8_constant_series_zero_deviation 7 2 (by norm_num)

/-! ## Monte Carlo tail estimator: the sort -/

/-- The comparator accepts the left element exactly when it is strictly
smaller (the equal case returns 1). -/
lemma compare_le_zero_iff {α : Type} [LinearOrder α] (a b : α) :
    compare a b ≤ 0 ↔ a < b := by
  unfold compare
  by_cases h : a < b <;> by_cases h2 : b < a <;> simp [h, h2]

lemma insertSorted_perm {α : Type} [LinearOrder α] (x : α) (l : List α) :
    List.Perm (insertSorted x l) (x :: l) := by
  induction l with
  | nil => exact List.Perm.refl _
  | cons y ys ih =>
    unfold insertSorted
    split
    · exact List.Perm.refl _
    · exact (ih.cons y).trans (List.Perm.swap x y ys)

lemma qsortModel_perm {α : Type} [LinearOrder α] (l : List α) :
    List.Perm (qsortModel l) l := by
  induction l with
  | nil => exact List.Perm.refl _
  | cons x xs ih => exact (insertSorted_perm x (qsortModel xs)).trans (ih.cons x)

lemma insertSorted_sorted {α : Type} [LinearOrder α] (x : α) (l : List α)
    (h : l.Sorted (fun a b => a ≤ b)) :
    (insertSorted x l).Sorted (fun a b => a ≤ b) := by
  induction l with
  | nil => simp [insertSorted]
  | cons y ys ih =>
    rw [List.sorted_cons] at h
    unfold insertSorted
    split
    · rename_i hc
      have hxy : x ≤ y := le_of_lt ((compare_le_zero_iff x y).mp hc)
      rw [List.sorted_cons]
      refine ⟨?_, by rw [List.sorted_cons]; exact h⟩
      intro b hb
      rcases List.mem_cons.mp hb with rfl | hb2
      · exact hxy
      · exact hxy.trans (h.1 b hb2)
    · rename_i hc
      have hyx : y ≤ x := le_of_not_lt fun hlt => hc ((compare_le_zero_iff x y).mpr hlt)
      rw [List.sorted_cons]
      refine ⟨?_, ih h.2⟩
      intro b hb
      rcases List.mem_cons.mp ((insertSorted_perm x ys).mem_iff.mp hb) with rfl | hb2
      · exact hyx
      · exact h.1 b hb2

lemma qsortModel_sorted {α : Type} [LinearOrder α] (l : List α) :
    (qsortModel l).Sorted (fun a b => a ≤ b) := by
  induction l with
  | nil => simp [qsortModel]
  | cons x xs ih => exact insertSorted_sorted x (qsortModel xs) ih

/-- The comparator-driven sort produces exactly the ascending arrangement:
although `compare` reports 1 on ties, ties only arise between equal values,
so the result coincides with Mathlib's `insertionSort` by `≤`. -/
lemma qsortModel_eq_insertionSort {α : Type} [LinearOrder α] (l : List α) :
    qsortModel l = l.insertionSort fun a b => a ≤ b :=
  List.eq_of_perm_of_sorted
    ((qsortModel_perm l).trans (List.perm_insertionSort _ l).symm)
    (qsortModel_sorted l)
    (List.sorted_insertionSort _ l)

/-- C4: on a 10000-element sample, `analyze` stores the element at
zero-based index 499 of the sample sorted ascending — the 500th-smallest
value (index `floor(0.05 * 10000) = 499`). -/
theorem C4_analyze_stores_ascending_index_499 {α : Type} [LinearOrder α]
    (data : List α) (h : data.length = 10000) :
    analyze data =
      some ((data.insertionSort fun a b => a ≤ b).get
        ⟨499, by rw [List.length_insertionSort]; omega⟩) := by
  unfold analyze
  rw [qsortModel_eq_insertionSort]
  rw [List.getElem?_eq_getElem (by rw [List.length_insertionSort]; omega)]
  simp [List.get_eq_getElem]

/-- Witness for C4 on a concrete 10000-element sample. -/
theorem C4_analyze_stores_ascending_index_499_witness :
    analyze (List.replicate 10000 (7 : ℚ)) = some 7 := by
  have h := C4_analyze_stores_ascending_index_499 (List.replicate 10000 (7 : ℚ))
    (by rw [List.length_replicate])
  rw [h]
  have hmem :
      ((List.replicate 10000 (7 : ℚ)).insertionSort fun a b => a ≤ b).get
          ⟨499, by rw [List.length_insertionSort, List.length_replicate]; omega⟩ ∈
        List.replicate 10000 (7 : ℚ) :=
    (List.perm_insertionSort (fun a b => a ≤ b) (List.replicate 10000 (7 : ℚ))).subset
      (List.get_mem _ _ _)
  exact congrArg some (List.eq_of_mem_replicate hmem)

/-! ## Analytic tail estimator: the integration loop -/

/-- Exiting the loop with `some r` means `r` is the first grid point at
which the accumulated rectangle mass reaches 0.05. -/
lemma riemanGo_some (m dev : ℝ) :
    ∀ (fuel k : ℕ) (r : ℝ),
      riemanGo m dev fuel ((m - 5 * dev) + k * stepSize) (massUpTo m dev k) = some r →
      ∃ n : ℕ, k ≤ n ∧ 0.05 ≤ massUpTo m dev n ∧
        (∀ j, k ≤ j → j < n → massUpTo m dev j < 0.05) ∧
        r = (m - 5 * dev) + n * stepSize := by
  intro fuel
  induction fuel with
  | zero =>
    intro k r h
    simp [riemanGo] at h
  | succ f ih =>
    intro k r h
    simp only [riemanGo] at h
    by_cases hb : massUpTo m dev k < 0.05
    · rw [if_pos hb] at h
      have hx : (m - 5 * dev) + (k : ℝ) * stepSize + stepSize =
          (m - 5 * dev) + ((k + 1 : ℕ) : ℝ) * stepSize := by
        push_cast
        ring
      have hmm : massUpTo m dev k +
          heightFn m dev ((m - 5 * dev) + (k : ℝ) * stepSize) * stepSize =
          massUpTo m dev (k + 1) := rfl
      rw [hx, hmm] at h
      obtain ⟨n, hkn, hmass, hmin, hr⟩ := ih (k + 1) r h
      refine ⟨n, by omega, hmass, ?_, hr⟩
      intro j hj1 hj2
      rcases Nat.eq_or_lt_of_le hj1 with rfl | hj3
      · exact hb
      · exact hmin j hj3 hj2
    · rw [if_neg hb] at h
      refine ⟨k, le_refl k, le_of_not_lt hb, by omega, ?_⟩
      exact (Option.some_inj.mp h).symm

/-- C3: whenever the `rieman` loop terminates (within any fuel bound) for a
deviation > 0, the value it stores is the first grid point
`mean - 5*deviation + n * 0.0001` at which the left-endpoint rectangle sum
`massUpTo` of the program's normal density reaches or exceeds 0.05 — not
any later grid point. -/
theorem C3_rieman_first_crossing (data : List ℝ) (m dev : ℝ) (fuel : ℕ) (r : ℝ)
    (hdev : 0 < dev) (h : rieman data m dev fuel = some r) :
    ∃ n : ℕ, 0.05 ≤ massUpTo m dev n ∧ (∀ j < n, massUpTo m dev j < 0.05) ∧
      r = (m - 5 * dev) + n * stepSize := by
  have h0 : riemanGo m dev fuel ((m - 5 * dev) + (0 : ℕ) * stepSize)
      (massUpTo m dev 0) = some r := by
    simpa [rieman, massUpTo] using h
  obtain ⟨n, _, hmass, hmin, hr⟩ := riemanGo_some m dev fuel 0 r h0
  exact ⟨n, hmass, fun j hj => hmin j (Nat.zero_le j) hj, hr⟩

/-! Bounds on the program's constants, used both to exhibit termination on
a concrete input and to show the loop admits no iteration cap. -/

lemma sqrt_two_pi_pos : 0 < Real.sqrt (PI * 2) := by
  apply Real.sqrt_pos.mpr
  norm_num [PI]

lemma sqrt_two_pi_le : Real.sqrt (PI * 2) ≤ 2.51 := by
  calc Real.sqrt (PI * 2) ≤ Real.sqrt (2.51 ^ 2) := Real.sqrt_le_sqrt (by norm_num [PI])
    _ = 2.51 := Real.sqrt_sq (by norm_num)

lemma two_le_sqrt_two_pi : (2 : ℝ) ≤ Real.sqrt (PI * 2) := by
  have h4 : Real.sqrt 4 ≤ Real.sqrt (PI * 2) := Real.sqrt_le_sqrt (by norm_num [PI])
  have h2 : Real.sqrt 4 = 2 := by
    rw [show (4 : ℝ) = 2 ^ 2 by norm_num, Real.sqrt_sq (by norm_num)]
  linarith

lemma INV_SQRT_2PI_nonneg : 0 ≤ INV_SQRT_2PI := by
  unfold INV_SQRT_2PI
  positivity

lemma INV_SQRT_2PI_le_half : INV_SQRT_2PI ≤ 1 / 2 := by
  unfold INV_SQRT_2PI
  exact one_div_le_one_div_of_le (by norm_num) two_le_sqrt_two_pi

lemma stepSize_nonneg : (0 : ℝ) ≤ stepSize := by norm_num [stepSize]

/-- Each rectangle height is at most the density peak `INV_SQRT_2PI / dev`. -/
lemma heightFn_le (m dev x : ℝ) (hdev : 0 < dev) :
    heightFn m dev x ≤ INV_SQRT_2PI / dev := by
  unfold heightFn
  have he : Real.exp (-0.5 * (((x - m) / dev) * ((x - m) / dev))) ≤ 1 := by
    rw [← Real.exp_zero]
    apply Real.exp_le_exp.mpr
    have hsq := mul_self_nonneg ((x - m) / dev)
    linarith
  calc INV_SQRT_2PI / dev * Real.exp (-0.5 * (((x - m) / dev) * ((x - m) / dev)))
      ≤ INV_SQRT_2PI / dev * 1 :=
        mul_le_mul_of_nonneg_left he (div_nonneg INV_SQRT_2PI_nonneg hdev.le)
    _ = INV_SQRT_2PI / dev := mul_one _

/-- If even `fuel` maximal-height rectangles cannot fill the 0.05 target,
the loop is still running after `fuel` iterations. -/
lemma riemanGo_none_of_small (m dev : ℝ) (hdev : 0 < dev) :
    ∀ (fuel : ℕ) (x b : ℝ),
      b + (fuel : ℝ) * (INV_SQRT_2PI / dev * stepSize) < 0.05 →
      riemanGo m dev fuel x b = none := by
  intro fuel
  induction fuel with
  | zero => intro x b _; rfl
  | succ f ih =>
    intro x b hb
    have hinc : 0 ≤ INV_SQRT_2PI / dev * stepSize :=
      mul_nonneg (div_nonneg INV_SQRT_2PI_nonneg hdev.le) stepSize_nonneg
    have hfc : (0 : ℝ) ≤ ((f + 1 : ℕ) : ℝ) * (INV_SQRT_2PI / dev * stepSize) :=
      mul_nonneg (Nat.cast_nonneg _) hinc
    have hblt : b < 0.05 := by linarith
    simp only [riemanGo]
    rw [if_pos hblt]
    apply ih
    have hh : heightFn m dev x * stepSize ≤ INV_SQRT_2PI / dev * stepSize :=
      mul_le_mul_of_nonneg_right (heightFn_le m dev x hdev) stepSize_nonneg
    push_cast at hb ⊢
    linarith

/-- C2: the `rieman` loop is NOT bounded by any iteration or step cap: for
every candidate bound `fuel` there is a positive deviation (namely
`fuel + 1`) on which the loop is still running after `fuel` iterations. -/
theorem C2_no_iteration_cap (fuel : ℕ) (data : List ℝ) :
    ∃ dev : ℝ, 0 < dev ∧ rieman data 0 dev fuel = none := by
  refine ⟨(fuel : ℝ) + 1, by positivity, ?_⟩
  unfold rieman
  apply riemanGo_none_of_small 0 ((fuel : ℝ) + 1) (by positivity)
  have hpos : (0 : ℝ) < (fuel : ℝ) + 1 := by positivity
  have key : (fuel : ℝ) * (INV_SQRT_2PI / ((fuel : ℝ) + 1) * stepSize) ≤
      1 / 2 * stepSize := by
    have h1 : (fuel : ℝ) * (INV_SQRT_2PI / ((fuel : ℝ) + 1) * stepSize) =
        ((fuel : ℝ) / ((fuel : ℝ) + 1)) * (INV_SQRT_2PI * stepSize) := by
      field_simp
    rw [h1]
    have h2 : (fuel : ℝ) / ((fuel : ℝ) + 1) ≤ 1 := by
      rw [div_le_one hpos]
      linarith
    have h4 : 0 ≤ INV_SQRT_2PI * stepSize := mul_nonneg INV_SQRT_2PI_nonneg stepSize_nonneg
    calc ((fuel : ℝ) / ((fuel : ℝ) + 1)) * (INV_SQRT_2PI * stepSize)
        ≤ 1 * (INV_SQRT_2PI * stepSize) := mul_le_mul_of_nonneg_right h2 h4
      _ = INV_SQRT_2PI * stepSize := one_mul _
      _ ≤ 1 / 2 * stepSize := mul_le_mul_of_nonneg_right INV_SQRT_2PI_le_half stepSize_nonneg
  have hs : (1 : ℝ) / 2 * stepSize < 0.05 := by norm_num [stepSize]
  linarith

/-- C9: `rieman` never reads its `data` parameter — the stored analytic VaR
depends only on the mean and deviation arguments. -/
theorem C9_rieman_ignores_data (data1 data2 : List ℝ) (m dev : ℝ) (fuel : ℕ) :
    rieman data1 m dev fuel = rieman data2 m dev fuel := rfl

/-! ## A concrete terminating run of the integration loop -/

lemma exp_twelve_half_le : Real.exp (12.5 : ℝ) ≤ 442414 := by
  have h1 : Real.exp (12.5 : ℝ) ≤ Real.exp 13 := Real.exp_le_exp.mpr (by norm_num)
  have h2 : Real.exp 1 ^ 13 = Real.exp (13 : ℝ) := by
    rw [Real.exp_one_pow]
    norm_num
  have h3 : Real.exp 1 ^ 13 ≤ (2.7182818286 : ℝ) ^ 13 :=
    pow_le_pow_left (Real.exp_pos 1).le Real.exp_one_lt_d9.le 13
  have h4 : (2.7182818286 : ℝ) ^ 13 ≤ 442414 := by norm_num
  linarith

lemma exp_neg_twelve_half_ge : (1 : ℝ) / 442414 ≤ Real.exp (-12.5) := by
  rw [Real.exp_neg, one_div]
  exact inv_le_inv_of_le (Real.exp_pos _) exp_twelve_half_le

/-- With the tiny deviation `10⁻¹⁰`, the very first rectangle already
exceeds the 0.05 target, so the loop exits after one iteration. -/
lemma rieman_tiny_dev_terminates :
    rieman [] 0 (1 / 10000000000) 2 =
      some ((0 - 5 * (1 / 10000000000 : ℝ)) + stepSize) := by
  have hH : heightFn 0 (1 / 10000000000 : ℝ) (0 - 5 * (1 / 10000000000)) =
      INV_SQRT_2PI / (1 / 10000000000) * Real.exp (-12.5) := by
    unfold heightFn
    norm_num
  have h1 : (0.05 : ℝ) ≤ INV_SQRT_2PI / (1 / 10000000000) * Real.exp (-12.5) * stepSize := by
    have hS := sqrt_two_pi_le
    have hS0 := sqrt_two_pi_pos
    have hE := exp_neg_twelve_half_ge
    unfold INV_SQRT_2PI
    simp only [stepSize]
    have hrw : 1 / Real.sqrt (PI * 2) / (1 / 10000000000 : ℝ) * Real.exp (-12.5) * 0.0001 =
        Real.exp (-12.5) * 1000000 / Real.sqrt (PI * 2) := by
      field_simp
      ring
    rw [hrw]
    have hcalc : (1 : ℝ) / 442414 * 1000000 / 2.51 ≤
        Real.exp (-12.5) * 1000000 / Real.sqrt (PI * 2) := by
      gcongr
    have hnum : (0.05 : ℝ) ≤ 1 / 442414 * 1000000 / 2.51 := by norm_num
    linarith
  have hkey : ¬(0 + heightFn 0 (1 / 10000000000 : ℝ) (0 - 5 * (1 / 10000000000)) *
      stepSize < 0.05) := by
    rw [hH, zero_add]
    exact not_lt.mpr h1
  unfold rieman
  simp only [riemanGo]
  rw [if_pos (by norm_num : (0 : ℝ) < 0.05), if_neg hkey]

/-- Witness for C3: the run at mean 0, deviation `10⁻¹⁰`, two loop steps. -/
theorem C3_rieman_first_crossing_witness :
    ∃ n : ℕ, 0.05 ≤ massUpTo 0 (1 / 10000000000) n ∧
      (∀ j < n, massUpTo 0 (1 / 10000000000) j < 0.05) ∧
      ((0 : ℝ) - 5 * (1 / 10000000000)) + stepSize =
        (0 - 5 * (1 / 10000000000)) + n * stepSize :=
  C3_rieman_first_crossing [] 0 (1 / 10000000000) 2 _ (by norm_num)
    rieman_tiny_dev_terminates

/-! ## Outcome codes of the analysis phase -/

lemma mean_pair_one : mean ([1, 1] : List ℝ) = 1 := by
  unfold mean
  rw [if_neg (by norm_num), listSum_eq_sum]
  norm_num

lemma stand_dev_pair_one : stand_dev ([1, 1] : List ℝ) (mean ([1, 1] : List ℝ)) = 0 := by
  rw [mean_pair_one]
  unfold stand_dev
  rw [if_neg (by norm_num)]
  have h : sqAccum 1 ([1, 1] : List ℝ) = 0 := by
    rw [sqAccum_eq_sum]
    simp
  rw [h, zero_div, Real.sqrt_zero]

/-- C5 (amended): the analysis phase reports the not-found outcome (exit
code 3) exactly when the target's hash bucket holds no series, and the
degenerate outcome (exit code 2) when the located series has standard
deviation 0; in the degenerate case the result does not depend on the
random stream or on the integration fuel (the sampler and both estimators
never run), no output line is produced, and the bucket is left with only
its `mean` field updated (no VaR fields are written). -/
theorem C5_outcome_codes (store : Store ℝ) (target : List ℕ) :
    (store (hashIdx target) = none →
      ∀ (rng : ℕ → ℕ) (fuel : ℕ),
        runTarget rng fuel store target = some (3, store, none)) ∧
    (∀ b : Portfolio ℝ, store (hashIdx target) = some b →
      stand_dev b.returns (mean b.returns) = 0 →
      ∀ (rng : ℕ → ℕ) (fuel : ℕ),
        runTarget rng fuel store target =
          some (2, updateStore store (hashIdx target)
            { b with mean := mean b.returns }, none)) := by
  constructor
  · intro h rng fuel
    unfold runTarget
    rw [h]
  · intro b hb hsd rng fuel
    unfold runTarget
    rw [hb]
    show analyzeFound rng fuel store (hashIdx target) b = _
    unfold analyzeFound
    rw [if_pos hsd]

/-- Witness for C5 on concrete stores: the empty store yields exit code 3;
the store holding the degenerate series `[1, 1]` yields exit code 2. -/
theorem C5_outcome_codes_witness :
    runTarget (fun _ => 0) 0 emptyStore [65] = some (3, emptyStore, none) ∧
    runTarget (fun _ => 0) 0 degStore [65] =
      some (2, updateStore degStore (hashIdx [65])
        { degBucket with mean := mean degBucket.returns }, none) := by
  refine ⟨(C5_outcome_codes emptyStore [65]).1 rfl (fun _ => 0) 0, ?_⟩
  apply (C5_outcome_codes degStore [65]).2 degBucket rfl
  show stand_dev degBucket.returns (mean degBucket.returns) = 0
  have h : degBucket.returns = ([1, 1] : List ℝ) := rfl
  rw [h]
  exact stand_dev_pair_one

/-- C5, counterexample to the claim as stated: the label "D" (`[68]`) is
never ingested, yet because it collides with "A" (`[65]`) the run does not
report the not-found outcome — it analyzes "A"'s degenerate series and
exits with code 2, indistinguishable from a degenerate run on an ingested
label. -/
theorem C5_never_ingested_not_distinguished :
    ∃ s' : Store ℝ,
      runTarget (fun _ => 0) 0
          (ingestRecord (ingestRecord (emptyStore : Store ℝ) [65] 1) [65] 1) [68] =
        some (2, s', none) := by
  have hstore : (ingestRecord (ingestRecord (emptyStore : Store ℝ) [65] 1) [65] 1)
      (hashIdx [68]) =
      some { type_name := [65], returns := [1, 1], day_count := 2, capacity := 50,
             mean := 0, std_dev := 0, worst_case := 0, worst_case_rieman := 0 } := rfl
  refine ⟨updateStore (ingestRecord (ingestRecord (emptyStore : Store ℝ) [65] 1) [65] 1)
      (hashIdx [68])
      { type_name := [65], returns := [1, 1], day_count := 2, capacity := 50,
        mean := mean ([1, 1] : List ℝ), std_dev := 0, worst_case := 0,
        worst_case_rieman := 0 }, ?_⟩
  unfold runTarget
  rw [hstore]
  show analyzeFound (fun _ => 0) 0 _ (hashIdx [68])
      { type_name := [65], returns := [1, 1], day_count := 2, capacity := 50,
        mean := 0, std_dev := 0, worst_case := 0, worst_case_rieman := 0 } = _
  unfold analyzeFound
  rw [if_pos stand_dev_pair_one]

end FinanceEngine
